import Mathlib

/-!
# Verification of the Mind2Web dataset data model and loader

Shallow embedding of `src/mind2web/mind2web_types.py` and
`src/mind2web/mind2web_loader.py`.  Python dataclasses become Lean
structures, Python dicts become ordered association lists with
insert-or-update semantics, fallible code returns `Except`, and the
global `random` generator becomes an explicitly passed state.
-/

namespace Mind2Web

/-- Runtime exceptions that the embedded Python code can raise. -/
inductive PyErr
  | keyError (k : String)
  | typeError
  | attributeError
  | valueError
deriving DecidableEq

/-- `Operation` dataclass from `mind2web_types.py`: the interaction to
perform.  `op` is declared as a `Literal["CLICK","TYPE","SELECT"]` in the
source but never validated, so it is embedded as a plain string. -/
structure Operation where
  op : String
  value : String
  original_op : String
deriving DecidableEq

/-- `Candidate` dataclass from `mind2web_types.py`: one DOM-element
reference.  `attributes` is kept verbatim as a JSON-encoded string. -/
structure Candidate where
  backend_node_id : String
  tag : String
  attributes : String
  is_original_target : Bool
  is_top_level_target : Bool
deriving DecidableEq

/-- `Action` dataclass from `mind2web_types.py`: one step of a task. -/
structure Action where
  action_uid : String
  raw_html : String
  cleaned_html : String
  operation : Operation
  pos_candidates : List Candidate
  neg_candidates : List Candidate
deriving DecidableEq

/-- `Task` dataclass from `mind2web_types.py`: one annotated
interaction goal. -/
structure Task where
  annotation_id : String
  website : String
  domain : String
  subdomain : String
  confirmed_task : String
  action_reprs : List String
  actions : List Action
deriving DecidableEq

/-- `Mind2WebDataset` dataclass from `mind2web_types.py`. -/
structure Mind2WebDataset where
  tasks : List Task
  split : String
deriving DecidableEq

/-! ## Action derived accessors -/

/-- The `for candidate in self.pos_candidates: if candidate.is_original_target:
return candidate` loop of `Action.primary_ground_truth`. -/
def firstOriginalTarget : List Candidate → Option Candidate
  | [] => none
  | c :: rest => if c.is_original_target then some c else firstOriginalTarget rest

/-- `Action.primary_ground_truth`: the first positive candidate flagged
`is_original_target`, else the first positive candidate, else `None`. -/
def primaryGroundTruth (a : Action) : Option Candidate :=
  match firstOriginalTarget a.pos_candidates with
  | some c => some c
  | none => a.pos_candidates.head?

/-- `Action.has_ground_truth`: positive candidate list non-empty. -/
def hasGroundTruth (a : Action) : Bool :=
  a.pos_candidates.length > 0

/-! ## Python dict model

`Task.operation_counts` builds a Python dict keyed by strings.  A dict
is embedded as an ordered association list: updating an existing key
rewrites its (first) binding in place, a new key is appended at the
end.  Values are `Int` because Python integers are unbounded. -/

/-- `d.get(k, dflt)` on the association-list dict model: value of the
first binding of `k`, or the default. -/
def dictGet : List (String × Int) → String → Int → Int
  | [], _, dflt => dflt
  | p :: rest, k, dflt => if p.1 = k then p.2 else dictGet rest k dflt

/-- Whether the dict has a binding for `k` (`k in d`). -/
def dictHasKey : List (String × Int) → String → Bool
  | [], _ => false
  | p :: rest, k => if p.1 = k then true else dictHasKey rest k

/-- `d[k] = v` on the dict model: rewrite the first binding of `k` if it
exists, otherwise append a fresh binding. -/
def dictSet (d : List (String × Int)) (k : String) (v : Int) : List (String × Int) :=
  match d with
  | [] => [(k, v)]
  | p :: rest =>
    if p.1 = k then (k, v) :: rest
    else p :: dictSet rest k v

/-- Sum of all values stored in the dict model. -/
def dictValuesSum (d : List (String × Int)) : Int :=
  (d.map Prod.snd).sum

/-! ## Task derived accessors -/

/-- `Task.num_actions`. -/
def numActions (t : Task) : Nat :=
  t.actions.length

/-- `Task.num_actions_with_ground_truth`. -/
def numActionsWithGroundTruth (t : Task) : Nat :=
  (t.actions.filter (fun a => hasGroundTruth a)).length

/-- `Task.operation_counts`: start from `{"CLICK": 0, "TYPE": 0, "SELECT": 0}`
and do `counts[op] = counts.get(op, 0) + 1` for each action. -/
def operationCounts (t : Task) : List (String × Int) :=
  t.actions.foldl
    (fun counts a => dictSet counts a.operation.op (dictGet counts a.operation.op 0 + 1))
    [("CLICK", 0), ("TYPE", 0), ("SELECT", 0)]

/-- `Task.get_previous_actions`: Python `list[start:stop]` slicing with
non-negative bounds clamps at the list length. -/
def pySlice (l : List String) (start stop : Int) : List String :=
  (l.drop start.toNat).take (stop - start).toNat

/-- `Task.get_previous_actions(action_index, max_k)`.  Indices are `Int`
because Python integers are signed. -/
def getPreviousActions (t : Task) (actionIndex : Int) (maxK : Int) : List String :=
  if actionIndex ≤ 0 then []
  else
    pySlice t.action_reprs (max 0 (actionIndex - maxK)) actionIndex

/-! ## Dataset derived accessors and non-mutating operations -/

/-- `Mind2WebDataset.num_tasks`. -/
def numTasks (d : Mind2WebDataset) : Nat :=
  d.tasks.length

/-- `Mind2WebDataset.num_actions_with_ground_truth`. -/
def datasetNumActionsWithGroundTruth (d : Mind2WebDataset) : Nat :=
  (d.tasks.map numActionsWithGroundTruth).sum

/-- `Mind2WebDataset.filter_by_website`: keep tasks with exactly equal
`website`, label the result `"<split>__<website>"`. -/
def filterByWebsite (d : Mind2WebDataset) (website : String) : Mind2WebDataset :=
  { tasks := d.tasks.filter (fun t => t.website = website)
    split := d.split ++ "__" ++ website }

/-! ## Dict model lemmas -/

theorem dictGet_set_eq (d : List (String × Int)) (k : String) (v dflt : Int) :
    dictGet (dictSet d k v) k dflt = v := by
  induction d with
  | nil => simp [dictSet, dictGet]
  | cons p rest ih =>
    by_cases h : p.1 = k
    · simp [dictSet, h, dictGet]
    · simp only [dictSet, h, if_false]
      simpa [dictGet, h] using ih

theorem dictGet_set_ne (d : List (String × Int)) (k k' : String) (v dflt : Int)
    (h : k ≠ k') : dictGet (dictSet d k v) k' dflt = dictGet d k' dflt := by
  induction d with
  | nil => simp [dictSet, dictGet, h]
  | cons p rest ih =>
    by_cases hp : p.1 = k
    · have hp' : ¬ p.1 = k' := by rw [hp]; exact h
      simp [dictSet, hp, dictGet, h, hp']
    · simp only [dictSet, hp, if_false]
      by_cases hp' : p.1 = k'
      · simp [dictGet, hp']
      · simpa [dictGet, hp'] using ih

theorem dictHasKey_set_self (d : List (String × Int)) (k : String) (v : Int) :
    dictHasKey (dictSet d k v) k = true := by
  induction d with
  | nil => simp [dictSet, dictHasKey]
  | cons p rest ih =>
    by_cases hp : p.1 = k
    · simp [dictSet, hp, dictHasKey]
    · simp only [dictSet, hp, if_false]
      simpa [dictHasKey, hp] using ih

theorem dictHasKey_set_mono (d : List (String × Int)) (k k' : String) (v : Int)
    (h : dictHasKey d k' = true) : dictHasKey (dictSet d k v) k' = true := by
  induction d with
  | nil => simp [dictHasKey] at h
  | cons p rest ih =>
    by_cases hp : p.1 = k
    · by_cases hkk : k = k'
      · simp [dictSet, hp, dictHasKey, hkk]
      · have hp' : ¬ p.1 = k' := by rw [hp]; exact hkk
        simp only [dictSet, hp, if_true, reduceIte]
        simp only [dictHasKey, hp', if_false] at h
        simpa [dictHasKey, hkk] using h
    · simp only [dictSet, hp, if_false]
      by_cases hp' : p.1 = k'
      · simp [dictHasKey, hp']
      · simp only [dictHasKey, hp', if_false] at h ⊢
        exact ih h

theorem dictValuesSum_set_incr (d : List (String × Int)) (k : String) :
    dictValuesSum (dictSet d k (dictGet d k 0 + 1)) = dictValuesSum d + 1 := by
  induction d with
  | nil => simp [dictSet, dictGet, dictValuesSum]
  | cons p rest ih =>
    by_cases hp : p.1 = k
    · simp [dictSet, hp, dictGet, dictValuesSum]
      ring
    · simp only [dictSet, hp, if_false]
      have hget : dictGet (p :: rest) k 0 = dictGet rest k 0 := by
        simp [dictGet, hp]
      rw [hget]
      simp only [dictValuesSum, List.map_cons, List.sum_cons] at ih ⊢
      rw [ih]
      ring

/-! ## operation_counts fold lemmas -/

/-- The body of the `for action in self.actions` loop of `operation_counts`. -/
def countStep (counts : List (String × Int)) (a : Action) : List (String × Int) :=
  dictSet counts a.operation.op (dictGet counts a.operation.op 0 + 1)

theorem operationCounts_eq_foldl (t : Task) :
    operationCounts t = t.actions.foldl countStep [("CLICK", 0), ("TYPE", 0), ("SELECT", 0)] := rfl

theorem foldl_countStep_get (acts : List Action) (d : List (String × Int)) (k : String) :
    dictGet (acts.foldl countStep d) k 0
      = dictGet d k 0 + ((acts.filter (fun a => a.operation.op = k)).length : Int) := by
  induction acts generalizing d with
  | nil => simp
  | cons a rest ih =>
    rw [List.foldl_cons, ih]
    by_cases h : a.operation.op = k
    · rw [show countStep d a = dictSet d k (dictGet d k 0 + 1) by rw [countStep, h]]
      rw [dictGet_set_eq]
      simp [h]
      ring
    · rw [countStep, dictGet_set_ne d _ k _ 0 h]
      simp [h]

theorem foldl_countStep_hasKey (acts : List Action) (d : List (String × Int)) (k : String)
    (h : dictHasKey d k = true) : dictHasKey (acts.foldl countStep d) k = true := by
  induction acts generalizing d with
  | nil => simpa using h
  | cons a rest ih =>
    rw [List.foldl_cons]
    exact ih _ (dictHasKey_set_mono _ _ _ _ h)

theorem foldl_countStep_sum (acts : List Action) (d : List (String × Int)) :
    dictValuesSum (acts.foldl countStep d) = dictValuesSum d + acts.length := by
  induction acts generalizing d with
  | nil => simp
  | cons a rest ih =>
    rw [List.foldl_cons, ih, countStep, dictValuesSum_set_incr]
    simp only [List.length_cons]
    push_cast
    ring

theorem count_three_le (acts : List Action) :
    ((acts.filter (fun a => a.operation.op = "CLICK")).length
      + (acts.filter (fun a => a.operation.op = "TYPE")).length
      + (acts.filter (fun a => a.operation.op = "SELECT")).length) ≤ acts.length
    ∧ ((∀ a ∈ acts, a.operation.op = "CLICK" ∨ a.operation.op = "TYPE"
          ∨ a.operation.op = "SELECT") →
        ((acts.filter (fun a => a.operation.op = "CLICK")).length
          + (acts.filter (fun a => a.operation.op = "TYPE")).length
          + (acts.filter (fun a => a.operation.op = "SELECT")).length) = acts.length) := by
  induction acts with
  | nil => simp
  | cons a rest ih =>
    obtain ⟨ihle, iheq⟩ := ih
    by_cases hc : a.operation.op = "CLICK"
    · constructor
      · simp [List.filter_cons, hc]
        omega
      · intro hall
        have := iheq (fun b hb => hall b (List.mem_cons_of_mem a hb))
        simp [List.filter_cons, hc]
        omega
    · by_cases ht : a.operation.op = "TYPE"
      · constructor
        · simp [List.filter_cons, hc, ht]
          omega
        · intro hall
          have := iheq (fun b hb => hall b (List.mem_cons_of_mem a hb))
          simp [List.filter_cons, hc, ht]
          omega
      · by_cases hs : a.operation.op = "SELECT"
        · constructor
          · simp [List.filter_cons, hc, ht, hs]
            omega
          · intro hall
            have := iheq (fun b hb => hall b (List.mem_cons_of_mem a hb))
            simp [List.filter_cons, hc, ht, hs]
            omega
        · constructor
          · simp [List.filter_cons, hc, ht, hs]
            omega
          · intro hall
            rcases hall a (List.mem_cons_self a rest) with h | h | h
            · exact absurd h hc
            · exact absurd h ht
            · exact absurd h hs

theorem firstOriginalTarget_eq_find (l : List Candidate) :
    firstOriginalTarget l = l.find? (fun c => c.is_original_target) := by
  induction l with
  | nil => rfl
  | cons c rest ih =>
    by_cases h : c.is_original_target
    · simp [firstOriginalTarget, List.find?_cons, h]
    · simp [firstOriginalTarget, List.find?_cons, h, ih]

/-- C2: `primary_ground_truth` iterates the positive candidates in stored
order and returns the first with `is_original_target` set; if none is
flagged it returns the first positive candidate, and if the positive list
is empty it returns `None`.  `List.find?` is the first-match-in-stored-order
characterisation. -/
theorem primaryGroundTruth_spec (a : Action) :
    (a.pos_candidates = [] → primaryGroundTruth a = none)
    ∧ (∀ c, a.pos_candidates.find? (fun c => c.is_original_target) = some c →
        primaryGroundTruth a = some c)
    ∧ (a.pos_candidates.find? (fun c => c.is_original_target) = none →
        primaryGroundTruth a = a.pos_candidates.head?) := by
  refine ⟨?_, ?_, ?_⟩
  · intro h
    simp [primaryGroundTruth, h, firstOriginalTarget]
  · intro c h
    simp [primaryGroundTruth, firstOriginalTarget_eq_find, h]
  · intro h
    simp [primaryGroundTruth, firstOriginalTarget_eq_find, h]

def wCandidateA : Candidate := ⟨"1", "div", "", false, false⟩

def wCandidateB : Candidate := ⟨"2", "a", "", true, false⟩

def wOperationClick : Operation := ⟨"CLICK", "", "CLICK"⟩

def wActionAB : Action := ⟨"u0", "<html>", "<html>", wOperationClick, [wCandidateA, wCandidateB], []⟩

/-- Witness for C2 at a concrete action whose second positive candidate is
the original target. -/
theorem primaryGroundTruth_spec_witness :
    wActionAB.pos_candidates.find? (fun c => c.is_original_target) = some wCandidateB
    ∧ primaryGroundTruth wActionAB = some wCandidateB :=
  ⟨by decide, (primaryGroundTruth_spec wActionAB).2.1 wCandidateB (by decide)⟩

/-- C10: every action contributes exactly one increment to exactly one key,
so the values of `operation_counts` (canonical keys plus inserted ones)
sum to exactly `num_actions`. -/
theorem operationCounts_values_sum (t : Task) :
    dictValuesSum (operationCounts t) = (numActions t : Int) := by
  rw [operationCounts_eq_foldl, foldl_countStep_sum]
  simp [dictValuesSum, numActions]

theorem dictGet_initial (k : String) :
    dictGet [("CLICK", (0:Int)), ("TYPE", 0), ("SELECT", 0)] k 0 = 0 := by
  simp only [dictGet]
  split_ifs <;> rfl

/-- C3: `operation_counts` always contains the keys CLICK, TYPE and SELECT
with values ≥ 0; an op outside these three is counted under its own key
without failing; and the three canonical counts sum to at most
`num_actions`, with equality when every action's op is canonical. -/
theorem operationCounts_spec (t : Task) :
    (dictHasKey (operationCounts t) "CLICK" = true
      ∧ dictHasKey (operationCounts t) "TYPE" = true
      ∧ dictHasKey (operationCounts t) "SELECT" = true)
    ∧ (∀ k : String, 0 ≤ dictGet (operationCounts t) k 0)
    ∧ (∀ k : String, k ≠ "CLICK" → k ≠ "TYPE" → k ≠ "SELECT" →
        dictGet (operationCounts t) k 0
          = ((t.actions.filter (fun a => a.operation.op = k)).length : Int))
    ∧ (dictGet (operationCounts t) "CLICK" 0 + dictGet (operationCounts t) "TYPE" 0
        + dictGet (operationCounts t) "SELECT" 0 ≤ (numActions t : Int))
    ∧ ((∀ a ∈ t.actions, a.operation.op = "CLICK" ∨ a.operation.op = "TYPE"
          ∨ a.operation.op = "SELECT") →
        dictGet (operationCounts t) "CLICK" 0 + dictGet (operationCounts t) "TYPE" 0
          + dictGet (operationCounts t) "SELECT" 0 = (numActions t : Int)) := by
  have hget : ∀ k : String, dictGet (operationCounts t) k 0
      = ((t.actions.filter (fun a => a.operation.op = k)).length : Int) := by
    intro k
    rw [operationCounts_eq_foldl, foldl_countStep_get, dictGet_initial]
    ring
  refine ⟨⟨?_, ?_, ?_⟩, ?_, ?_, ?_, ?_⟩
  · rw [operationCounts_eq_foldl]
    exact foldl_countStep_hasKey _ _ _ (by rfl)
  · rw [operationCounts_eq_foldl]
    exact foldl_countStep_hasKey _ _ _ (by rfl)
  · rw [operationCounts_eq_foldl]
    exact foldl_countStep_hasKey _ _ _ (by rfl)
  · intro k
    rw [hget]
    exact Int.ofNat_nonneg _
  · intro k _ _ _
    exact hget k
  · rw [hget, hget, hget]
    have := (count_three_le t.actions).1
    rw [numActions]
    exact_mod_cast this
  · intro hall
    rw [hget, hget, hget]
    have := (count_three_le t.actions).2 hall
    rw [numActions]
    exact_mod_cast this

def wTaskOps : Task := ⟨"t3", "w", "d", "sd", "ops", [],
  [⟨"a1", "", "", ⟨"CLICK", "", "CLICK"⟩, [], []⟩,
   ⟨"a2", "", "", ⟨"TYPE", "x", "TYPE"⟩, [], []⟩]⟩

/-- Witness for C3 at a concrete two-action task. -/
theorem operationCounts_spec_witness :
    dictGet (operationCounts wTaskOps) "HOVER" 0
        = ((wTaskOps.actions.filter (fun a => a.operation.op = "HOVER")).length : Int)
    ∧ dictGet (operationCounts wTaskOps) "CLICK" 0 + dictGet (operationCounts wTaskOps) "TYPE" 0
        + dictGet (operationCounts wTaskOps) "SELECT" 0 = (numActions wTaskOps : Int) :=
  ⟨(operationCounts_spec wTaskOps).2.2.1 "HOVER" (by decide) (by decide) (by decide),
   (operationCounts_spec wTaskOps).2.2.2.2 (by decide)⟩

/-- C8: `get_previous_actions` returns the empty sequence when the index is
at most 0, and otherwise the slice of `action_reprs` covering the index
range `[max 0 (i - max_k), i)` (clamped to the length, per Python slicing). -/
theorem getPreviousActions_spec (t : Task) (i k : Int) :
    (i ≤ 0 → getPreviousActions t i k = [])
    ∧ (0 < i →
        (getPreviousActions t i k).length
          = min i.toNat t.action_reprs.length - (max 0 (i - k)).toNat
        ∧ ∀ j : Nat, j < (getPreviousActions t i k).length →
            (getPreviousActions t i k).get? j
              = t.action_reprs.get? ((max 0 (i - k)).toNat + j)) := by
  constructor
  · intro h
    simp [getPreviousActions, h]
  · intro h
    have hif : getPreviousActions t i k
        = (t.action_reprs.drop (max 0 (i - k)).toNat).take (i - max 0 (i - k)).toNat := by
      rw [getPreviousActions, if_neg (not_le.mpr h)]
      rfl
    constructor
    · rw [hif, List.length_take, List.length_drop]
      omega
    · intro j hj
      rw [hif] at hj ⊢
      rw [List.length_take, List.length_drop] at hj
      rw [List.get?_eq_getElem?, List.get?_eq_getElem?,
        List.getElem?_take_of_lt (lt_of_lt_of_le hj (min_le_left _ _)), List.getElem?_drop]

def wTaskReprs : Task := ⟨"t4", "w", "d", "sd", "reprs", ["r0", "r1", "r2", "r3"], []⟩

/-- Witness for C8 at index 3 with window 2 over four stored reprs. -/
theorem getPreviousActions_spec_witness :
    (0:Int) < 3
    ∧ (getPreviousActions wTaskReprs 3 2).length
        = min (3:Int).toNat wTaskReprs.action_reprs.length - (max 0 ((3:Int) - 2)).toNat
    ∧ (getPreviousActions wTaskReprs 3 2).get? 0
        = wTaskReprs.action_reprs.get? ((max 0 ((3:Int) - 2)).toNat + 0) := by
  refine ⟨by decide, ((getPreviousActions_spec wTaskReprs 3 2).2 (by decide)).1, ?_⟩
  exact ((getPreviousActions_spec wTaskReprs 3 2).2 (by decide)).2 0 (by decide)

def cTaskW : Task := ⟨"t1", "w", "d", "sd", "do it", [], []⟩

def cTaskX : Task := ⟨"t2", "x", "d", "sd", "other", [], []⟩

def cDatasetWX : Mind2WebDataset := ⟨[cTaskW, cTaskX], "train"⟩

/-- C7 counterexample: `filter_by_website` is not idempotent as a Dataset
operation, because the split label grows on every application
(`"train__w"` vs `"train__w__w"`). -/
theorem filterByWebsite_not_idempotent :
    filterByWebsite (filterByWebsite cDatasetWX "w") "w" ≠ filterByWebsite cDatasetWX "w" := by
  decide

/-- C7 amended: the task sequence of `filter_by_website` is idempotent
(the split label is not); every resulting task matches the website by
exact string equality; an absent website yields zero tasks rather than an
error; and the split label is `"<split>__<website>"`. -/
theorem filterByWebsite_spec (d : Mind2WebDataset) (w : String) :
    (filterByWebsite (filterByWebsite d w) w).tasks = (filterByWebsite d w).tasks
    ∧ (∀ t ∈ (filterByWebsite d w).tasks, t.website = w)
    ∧ ((∀ t ∈ d.tasks, t.website ≠ w) → (filterByWebsite d w).tasks = [])
    ∧ (filterByWebsite d w).split = d.split ++ "__" ++ w := by
  refine ⟨?_, ?_, ?_, rfl⟩
  · simp [filterByWebsite, List.filter_filter]
  · intro t ht
    simp only [filterByWebsite, List.mem_filter, decide_eq_true_eq] at ht
    exact ht.2
  · intro h
    simp only [filterByWebsite]
    rw [List.filter_eq_nil_iff]
    intro t ht
    simpa using h t ht

/-- Witness for C7 at a dataset containing no task for website `"zzz"`. -/
theorem filterByWebsite_spec_witness :
    (∀ t ∈ cDatasetWX.tasks, t.website ≠ "zzz")
    ∧ (filterByWebsite cDatasetWX "zzz").tasks = [] :=
  ⟨by decide, (filterByWebsite_spec cDatasetWX "zzz").2.2.1 (by decide)⟩

/-! ## Python float values and `float()` parsing

`Candidate.bounding_box` calls `float` on the comma-separated parts of
`bounding_box_rect`.  Parsed finite values are kept exactly as rationals
rather than rounded to binary64; the accept/reject behaviour of `float()`
(ASCII whitespace stripping, optional sign, `inf`/`infinity`/`nan`
case-insensitively, decimal forms with optional fraction and exponent,
underscores between digits) is modeled faithfully. -/

/-- A value of Python's `float` type as far as this code observes it. -/
inductive PyFloat
  | finite (q : ℚ)
  | inf
  | ninf
  | nan
deriving DecidableEq

/-- ASCII whitespace stripped by `float()` / `str.strip`. -/
def isPyWs (c : Char) : Bool :=
  (c == ' ') || (c == '\t') || (c == '\n') || (c == '\r') || (c == '\x0b') || (c == '\x0c')

/-- Strip leading and trailing whitespace from a character list. -/
def stripChars (cs : List Char) : List Char :=
  ((cs.dropWhile isPyWs).reverse.dropWhile isPyWs).reverse

/-- Split a maximal run of leading ASCII digits from the input. -/
def takeDigits : List Char → (List Char × List Char)
  | [] => ([], [])
  | c :: rest =>
    if c.isDigit then
      let p := takeDigits rest
      (c :: p.1, p.2)
    else ([], c :: rest)

/-- Numeric value of a digit run. -/
def digitsVal (ds : List Char) : Nat :=
  ds.foldl (fun acc c => acc * 10 + (c.toNat - '0'.toNat)) 0

/-- Check that every underscore in a numeric literal sits between two
digits (Python's rule for `float()` input). -/
def underscoreWf : Option Char → List Char → Bool
  | _, [] => true
  | prev, c :: rest =>
    if c = '_' then
      (match prev with
        | some p => p.isDigit
        | none => false)
      && (match rest with
        | d :: _ => d.isDigit
        | [] => false)
      && underscoreWf (some c) rest
    else underscoreWf (some c) rest

/-- Parse the decimal body of a `float()` literal (sign and whitespace
already removed, characters lowered, underscores removed):
`digits? [. digits?] [e [sign] digits]` with at least one mantissa digit. -/
def parseDecimalQ (cs : List Char) : Option ℚ :=
  let ipr := takeDigits cs
  let dotted : Option (List Char × List Char) :=
    match ipr.2 with
    | '.' :: rest => some (takeDigits rest)
    | _ => none
  let fp := match dotted with
    | some x => x.1
    | none => []
  let r2 := match dotted with
    | some x => x.2
    | none => ipr.2
  if ipr.1 = [] ∧ fp = [] then none
  else
    let mant : ℚ := (digitsVal ipr.1 : ℚ) + (digitsVal fp : ℚ) / (10:ℚ) ^ fp.length
    match r2 with
    | [] => some mant
    | 'e' :: rest =>
      let signed : Int × List Char :=
        match rest with
        | '+' :: r => (1, r)
        | '-' :: r => (-1, r)
        | _ => (1, rest)
      let epr := takeDigits signed.2
      if epr.1 = [] ∨ epr.2 ≠ [] then none
      else some (mant * (10:ℚ) ^ (signed.1 * (digitsVal epr.1 : Int)))
    | _ => none

/-- Python `float(s)`: `none` models `ValueError`. -/
def pyFloatOfString (s : String) : Option PyFloat :=
  let cs := stripChars s.toList
  match cs with
  | [] => none
  | _ =>
    let signed : Int × List Char :=
      match cs with
      | '+' :: rest => (1, rest)
      | '-' :: rest => (-1, rest)
      | _ => (1, cs)
    let body := signed.2.map Char.toLower
    if body = ['i', 'n', 'f'] ∨ body = ['i', 'n', 'f', 'i', 'n', 'i', 't', 'y'] then
      some (if signed.1 = 1 then .inf else .ninf)
    else if body = ['n', 'a', 'n'] then
      some .nan
    else if underscoreWf none body = false then none
    else
      match parseDecimalQ (body.filter (fun c => c ≠ '_')) with
      | some q => some (.finite ((signed.1 : ℚ) * q))
      | none => none

/-! ## JSON values

A JSON value as decoded by Python's `json` module.  Objects keep
insertion order; a duplicate key overwrites the value at the first
occurrence's position, as a Python dict does. -/

inductive JValue
  | null
  | bool (b : Bool)
  | int (n : Int)
  | float (x : PyFloat)
  | str (s : String)
  | arr (elems : List JValue)
  | obj (entries : List (String × JValue))

/-- Lookup in a decoded JSON object (keys are unique after decoding). -/
def objLookup : List (String × JValue) → String → Option JValue
  | [], _ => none
  | p :: rest, k => if p.1 = k then some p.2 else objLookup rest k

/-- `d[k] = v` while decoding an object: overwrite the first binding of
`k` in place, else append. -/
def objUpsert : List (String × JValue) → String → JValue → List (String × JValue)
  | [], k, v => [(k, v)]
  | p :: rest, k, v =>
    if p.1 = k then (k, v) :: rest
    else p :: objUpsert rest k v

/-- Skip JSON whitespace (space, tab, newline, carriage return). -/
def skipWs : List Char → List Char
  | [] => []
  | c :: rest =>
    if c = ' ' ∨ c = '\t' ∨ c = '\n' ∨ c = '\r' then skipWs rest else c :: rest

/-- Consume an expected literal, returning the remainder. -/
def dropLit : List Char → List Char → Option (List Char)
  | [], cs => some cs
  | p :: ps, c :: cs => if c = p then dropLit ps cs else none
  | _ :: _, [] => none

/-- Hexadecimal digit value. -/
def hexVal (c : Char) : Option Nat :=
  if c.isDigit then some (c.toNat - '0'.toNat)
  else if 'a' ≤ c ∧ c ≤ 'f' then some (c.toNat - 'a'.toNat + 10)
  else if 'A' ≤ c ∧ c ≤ 'F' then some (c.toNat - 'A'.toNat + 10)
  else none

/-- Four hex digits of a `\uXXXX` escape. -/
def hex4 (a b c d : Char) : Option Nat := do
  let va ← hexVal a
  let vb ← hexVal b
  let vc ← hexVal c
  let vd ← hexVal d
  pure (((va * 16 + vb) * 16 + vc) * 16 + vd)

/-- Flush a pending high surrogate that turned out to be lone.  Python
keeps the lone surrogate in the decoded text, which Lean's `Char` cannot
represent, so it decodes to U+FFFD here. -/
def flushSurrogate (pend : Option Nat) (acc : List Char) : List Char :=
  match pend with
  | some _ => '\uFFFD' :: acc
  | none => acc

/-- Parse the body of a JSON string (opening quote already consumed).
Strict mode: unescaped control characters are rejected.  `pend` carries
the value of a preceding high-surrogate `\uXXXX` escape so that a valid
surrogate pair combines into one code point. -/
def parseJStringAux : Option Nat → List Char → List Char → Option (String × List Char)
  | pend, acc, '"' :: rest => some (String.mk (flushSurrogate pend acc).reverse, rest)
  | pend, acc, '\\' :: 'u' :: a :: b :: c :: d :: rest =>
    match hex4 a b c d with
    | none => none
    | some n =>
      if 0xD800 ≤ n ∧ n ≤ 0xDBFF then
        parseJStringAux (some n) (flushSurrogate pend acc) rest
      else if 0xDC00 ≤ n ∧ n ≤ 0xDFFF then
        match pend with
        | some hi =>
          parseJStringAux none
            (Char.ofNat (0x10000 + (hi - 0xD800) * 0x400 + (n - 0xDC00)) :: acc) rest
        | none => parseJStringAux none ('\uFFFD' :: acc) rest
      else parseJStringAux none (Char.ofNat n :: flushSurrogate pend acc) rest
  | pend, acc, '\\' :: e :: rest =>
    let dec : Option Char :=
      if e = '"' then some '"'
      else if e = '\\' then some '\\'
      else if e = '/' then some '/'
      else if e = 'b' then some '\x08'
      else if e = 'f' then some '\x0c'
      else if e = 'n' then some '\n'
      else if e = 'r' then some '\r'
      else if e = 't' then some '\t'
      else none
    match dec with
    | some c => parseJStringAux none (c :: flushSurrogate pend acc) rest
    | none => none
  | pend, acc, c :: rest =>
    if c.toNat < 0x20 then none
    else parseJStringAux none (c :: flushSurrogate pend acc) rest
  | _, _, [] => none

/-- Parse a JSON number token (grammar `-?(0|[1-9]\d*)(\.\d+)?([eE][-+]?\d+)?`);
an integer-formed token decodes to a Python int, otherwise to a float. -/
def parseJNum (cs : List Char) : Option (JValue × List Char) :=
  let signed : Bool × List Char :=
    match cs with
    | '-' :: rest => (true, rest)
    | _ => (false, cs)
  match signed.2 with
  | [] => none
  | c :: _ =>
    if !c.isDigit then none
    else
      let ipr : List Char × List Char :=
        if c = '0' then ([c], signed.2.tail) else takeDigits signed.2
      let fracd : Option (List Char × List Char) :=
        match ipr.2 with
        | '.' :: rest =>
          match takeDigits rest with
          | ([], _) => none
          | p => some p
        | _ => none
      let afterFrac := match fracd with
        | some p => p.2
        | none => ipr.2
      let expd : Option (Int × List Char) :=
        match afterFrac with
        | 'e' :: rest =>
          let es : Int × List Char :=
            match rest with
            | '+' :: r => (1, r)
            | '-' :: r => (-1, r)
            | _ => (1, rest)
          match takeDigits es.2 with
          | ([], _) => none
          | (ds, r) => some (es.1 * (digitsVal ds : Int), r)
        | 'E' :: rest =>
          let es : Int × List Char :=
            match rest with
            | '+' :: r => (1, r)
            | '-' :: r => (-1, r)
            | _ => (1, rest)
          match takeDigits es.2 with
          | ([], _) => none
          | (ds, r) => some (es.1 * (digitsVal ds : Int), r)
        | _ => none
      match fracd, expd with
      | none, none =>
        let n : Int := digitsVal ipr.1
        some (.int (if signed.1 then -n else n), ipr.2)
      | _, _ =>
        let fp := match fracd with
          | some p => p.1
          | none => []
        let e : Int := match expd with
          | some p => p.1
          | none => 0
        let rest := match expd with
          | some p => p.2
          | none => afterFrac
        let mant : ℚ := (digitsVal ipr.1 : ℚ) + (digitsVal fp : ℚ) / (10:ℚ) ^ fp.length
        let q : ℚ := mant * (10:ℚ) ^ e
        some (.float (.finite (if signed.1 then -q else q)), rest)

mutual

/-- Parse one JSON value.  Fuel bounds the recursion; `jsonLoads` supplies
more fuel than any input can consume, since every recursive call follows
the consumption of at least one input character. -/
def parseVal : Nat → List Char → Option (JValue × List Char)
  | 0, _ => none
  | fuel + 1, cs =>
    match skipWs cs with
    | [] => none
    | c :: rest =>
      if c = 'n' then (dropLit ['u', 'l', 'l'] rest).map (fun r => (.null, r))
      else if c = 't' then (dropLit ['r', 'u', 'e'] rest).map (fun r => (.bool true, r))
      else if c = 'f' then (dropLit ['a', 'l', 's', 'e'] rest).map (fun r => (.bool false, r))
      else if c = 'N' then (dropLit ['a', 'N'] rest).map (fun r => (.float .nan, r))
      else if c = 'I' then
        (dropLit ['n', 'f', 'i', 'n', 'i', 't', 'y'] rest).map (fun r => (.float .inf, r))
      else if c = '"' then (parseJStringAux none [] rest).map (fun p => (.str p.1, p.2))
      else if c = '[' then
        match skipWs rest with
        | ']' :: r2 => some (.arr [], r2)
        | _ => (parseElems fuel rest []).map (fun p => (.arr p.1, p.2))
      else if c = '{' then
        match skipWs rest with
        | '}' :: r2 => some (.obj [], r2)
        | _ => (parseMembers fuel rest []).map (fun p => (.obj p.1, p.2))
      else if c = '-' then
        match rest with
        | 'I' :: r2 =>
          (dropLit ['n', 'f', 'i', 'n', 'i', 't', 'y'] r2).map (fun r => (.float .ninf, r))
        | _ => parseJNum (c :: rest)
      else if c.isDigit then parseJNum (c :: rest)
      else none

/-- Parse the elements of a JSON array after `[` (at least one element). -/
def parseElems : Nat → List Char → List JValue → Option (List JValue × List Char)
  | 0, _, _ => none
  | fuel + 1, cs, acc =>
    match parseVal fuel cs with
    | none => none
    | some (v, rest) =>
      match skipWs rest with
      | ',' :: r2 => parseElems fuel r2 (v :: acc)
      | ']' :: r2 => some ((v :: acc).reverse, r2)
      | _ => none

/-- Parse the members of a JSON object after `{` (at least one member). -/
def parseMembers : Nat → List Char → List (String × JValue) →
    Option (List (String × JValue) × List Char)
  | 0, _, _ => none
  | fuel + 1, cs, acc =>
    match skipWs cs with
    | '"' :: r1 =>
      match parseJStringAux none [] r1 with
      | none => none
      | some (k, r2) =>
        match skipWs r2 with
        | ':' :: r3 =>
          match parseVal fuel r3 with
          | none => none
          | some (v, r4) =>
            match skipWs r4 with
            | ',' :: r5 => parseMembers fuel r5 (objUpsert acc k v)
            | '}' :: r5 => some (objUpsert acc k v, r5)
            | _ => none
        | _ => none
    | _ => none

end

/-- `json.loads`: decode a complete JSON document, rejecting trailing
non-whitespace (`Extra data`). -/
def jsonLoads (s : String) : Except String JValue :=
  let cs := s.toList
  match parseVal (4 * cs.length + 8) cs with
  | some (v, rest) => if skipWs rest = [] then .ok v else .error "Extra data"
  | none => .error "Expecting value"

/-! ## Candidate derived accessors -/

/-- `Candidate.attributes_dict`: empty dict for an empty (falsy) string,
`json.loads` otherwise, empty dict again when that raises
`JSONDecodeError`.  A successful parse is returned as-is, whatever JSON
value it produced. -/
def attributesDict (c : Candidate) : JValue :=
  if c.attributes = "" then .obj []
  else
    match jsonLoads c.attributes with
    | .ok v => v
    | .error _ => .obj []

/-- `Candidate.is_clickable`: `attrs.get('is_clickable') == 'true'`.
Calling `.get` on a non-dict raises `AttributeError`. -/
def isClickable (c : Candidate) : Except PyErr Bool :=
  match attributesDict c with
  | .obj entries =>
    .ok (match objLookup entries "is_clickable" with
      | some (.str s) => s == "true"
      | _ => false)
  | _ => .error .attributeError

/-- Python truthiness of a JSON-decoded value. -/
def pyTruthy : JValue → Bool
  | .null => false
  | .bool b => b
  | .int n => n != 0
  | .float x =>
    match x with
    | .finite q => q != 0
    | _ => true
  | .str s => s != ""
  | .arr l => !l.isEmpty
  | .obj l => !l.isEmpty

/-- `float()` over a list of parts, stopping at the first `ValueError`
(the `tuple(float(p) for p in parts[:4])` generator). -/
def parseFloats : List String → Option (List PyFloat)
  | [] => some []
  | s :: rest =>
    match pyFloatOfString s with
    | none => none
    | some x =>
      match parseFloats rest with
      | none => none
      | some xs => some (x :: xs)

/-- Python `s.split(",")`: split at every comma, keeping empty pieces. -/
def splitCommaChars : List Char → List (List Char)
  | [] => [[]]
  | c :: rest =>
    let r := splitCommaChars rest
    if c = ',' then [] :: r
    else
      match r with
      | h :: t => (c :: h) :: t
      | [] => [[c]]

/-- `s.split(",")` on strings. -/
def pySplitComma (s : String) : List String :=
  (splitCommaChars s.toList).map String.mk

/-- The `try` body of `bounding_box` on a non-empty string: split on
commas; with at least 4 parts return the first four parsed as floats,
with `ValueError` caught as `None`; fewer than 4 parts fall through to
`None`. -/
def bboxFromString (s : String) : Option (PyFloat × PyFloat × PyFloat × PyFloat) :=
  let parts := pySplitComma s
  if parts.length ≥ 4 then
    match parseFloats (parts.take 4) with
    | some [x, y, w, h] => some (x, y, w, h)
    | _ => none
  else none

/-- `Candidate.bounding_box`: take `attrs.get('bounding_box_rect', '')`;
a falsy value gives `None`; a truthy non-string raises `AttributeError`
at `.split`; a truthy string is handled by `bboxFromString`. -/
def boundingBox (c : Candidate) :
    Except PyErr (Option (PyFloat × PyFloat × PyFloat × PyFloat)) :=
  match attributesDict c with
  | .obj entries =>
    let bv := (objLookup entries "bounding_box_rect").getD (.str "")
    if pyTruthy bv = false then .ok none
    else
      match bv with
      | .str s => .ok (bboxFromString s)
      | _ => .error .attributeError
  | _ => .error .attributeError

/-! ## Loader

`mind2web_loader.py` over already-decoded JSON values.  `d[k]` raises
`KeyError` when absent and `TypeError` on a non-dict; `d.get(k, dflt)`
raises `AttributeError` on a non-dict.  Fields that the source stores
into string/bool dataclass slots are extracted with a shape check. -/

/-- `d[k]` on a raw JSON value. -/
def jGetReq : JValue → String → Except PyErr JValue
  | .obj entries, k =>
    match objLookup entries k with
    | some v => .ok v
    | none => .error (.keyError k)
  | _, _ => .error .typeError

/-- `d.get(k, dflt)` on a raw JSON value. -/
def jGetOpt : JValue → String → JValue → Except PyErr JValue
  | .obj entries, k, dflt => .ok ((objLookup entries k).getD dflt)
  | _, _, _ => .error .attributeError

/-- Whether a raw JSON value is an object containing key `k`. -/
def jHasKey : JValue → String → Bool
  | .obj entries, k => (objLookup entries k).isSome
  | _, _ => false

/-- Extract a JSON string. -/
def asString : JValue → Except PyErr String
  | .str s => .ok s
  | _ => .error .typeError

/-- Extract a JSON boolean. -/
def asBool : JValue → Except PyErr Bool
  | .bool b => .ok b
  | _ => .error .typeError

/-- Extract a JSON array. -/
def asArr : JValue → Except PyErr (List JValue)
  | .arr l => .ok l
  | _ => .error .typeError

/-- Python `str()` of a JSON scalar (`load_candidate` coerces
`backend_node_id` this way); the rendering of containers and floats is
not needed by any caller here and is left unmodeled. -/
def pyStr : JValue → Except PyErr String
  | .str s => .ok s
  | .int n => .ok (toString n)
  | .bool b => .ok (if b then "True" else "False")
  | .null => .ok "None"
  | _ => .error .typeError

/-- A Python list comprehension over a fallible body: the first raised
exception propagates. -/
def mapE {α β : Type} (f : α → Except PyErr β) : List α → Except PyErr (List β)
  | [] => .ok []
  | a :: rest =>
    match f a with
    | .error e => .error e
    | .ok b =>
      match mapE f rest with
      | .error e => .error e
      | .ok bs => .ok (b :: bs)

/-- `load_candidate`. -/
def loadCandidate (cd : JValue) : Except PyErr Candidate := do
  let bid ← jGetReq cd "backend_node_id"
  let bidS ← pyStr bid
  let tag ← jGetReq cd "tag" >>= asString
  let attrs ← jGetOpt cd "attributes" (.str "") >>= asString
  let orig ← jGetOpt cd "is_original_target" (.bool false) >>= asBool
  let top ← jGetOpt cd "is_top_level_target" (.bool false) >>= asBool
  .ok ⟨bidS, tag, attrs, orig, top⟩

/-- `load_operation`. -/
def loadOperation (od : JValue) : Except PyErr Operation := do
  let op ← jGetReq od "op" >>= asString
  let v ← jGetOpt od "value" (.str "") >>= asString
  let orig ← jGetOpt od "original_op" (.str op) >>= asString
  .ok ⟨op, v, orig⟩

/-- `load_action`: the operation is loaded first, then the candidate
lists, then the remaining required fields. -/
def loadAction (ad : JValue) : Except PyErr Action := do
  let opRaw ← jGetReq ad "operation"
  let operation ← loadOperation opRaw
  let posRaw ← jGetOpt ad "pos_candidates" (.arr []) >>= asArr
  let pos ← mapE loadCandidate posRaw
  let negRaw ← jGetOpt ad "neg_candidates" (.arr []) >>= asArr
  let neg ← mapE loadCandidate negRaw
  let uid ← jGetReq ad "action_uid" >>= asString
  let raw ← jGetReq ad "raw_html" >>= asString
  let cleaned ← jGetReq ad "cleaned_html" >>= asString
  .ok ⟨uid, raw, cleaned, operation, pos, neg⟩

/-- `load_task`: `task_dict['actions']` is read first, then the scalar
fields and the optional `action_reprs`. -/
def loadTask (td : JValue) : Except PyErr Task := do
  let actsRaw ← jGetReq td "actions" >>= asArr
  let actions ← mapE loadAction actsRaw
  let aid ← jGetReq td "annotation_id" >>= asString
  let website ← jGetReq td "website" >>= asString
  let domain ← jGetReq td "domain" >>= asString
  let subdomain ← jGetReq td "subdomain" >>= asString
  let confirmed ← jGetReq td "confirmed_task" >>= asString
  let reprsRaw ← jGetOpt td "action_reprs" (.arr []) >>= asArr
  let reprs ← mapE asString reprsRaw
  .ok ⟨aid, website, domain, subdomain, confirmed, reprs, actions⟩

/-- `load_json_file` after the JSON document has been decoded: the
top-level value must be an array of task records, each mapped by
`load_task`; the split label (the file stem) is passed in. -/
def loadData (raw : JValue) (split : String) : Except PyErr Mind2WebDataset := do
  let l ← asArr raw
  let tasks ← mapE loadTask l
  .ok ⟨tasks, split⟩

/-! ## Claims about the Candidate accessors -/

theorem objLookup_mem (entries : List (String × JValue)) (k : String) (v : JValue)
    (h : objLookup entries k = some v) : ∃ p ∈ entries, p.2 = v := by
  induction entries with
  | nil => simp [objLookup] at h
  | cons p rest ih =>
    by_cases hp : p.1 = k
    · simp only [objLookup, hp, if_true, reduceIte, Option.some.injEq] at h
      exact ⟨p, List.mem_cons_self _ _, h⟩
    · simp only [objLookup, hp, if_false] at h
      obtain ⟨q, hq, hv⟩ := ih h
      exact ⟨q, List.mem_cons_of_mem _ hq, hv⟩

def cCandidateNum : Candidate := ⟨"9", "div", "5", false, false⟩

/-- C1 counterexample: with `attributes = "5"` the JSON parse succeeds
with a non-mapping value (the Python int 5), so `attributes_dict` does
not return a mapping, and `is_clickable` raises `AttributeError`. -/
theorem attributesDict_not_always_mapping :
    attributesDict cCandidateNum = JValue.int 5
    ∧ isClickable cCandidateNum = .error .attributeError := ⟨rfl, rfl⟩

/-- C1 amended: for every candidate whose `attributes` string is empty,
unparseable, or parses to a JSON object with string values,
`attributes_dict` returns a mapping — the empty mapping on parse
failure — and `is_clickable` and `bounding_box` never raise. -/
theorem candidateAccessors_total (c : Candidate)
    (h : ∃ entries, attributesDict c = JValue.obj entries
        ∧ ∀ p ∈ entries, ∃ s, p.2 = JValue.str s) :
    (∃ entries, attributesDict c = JValue.obj entries)
    ∧ (∀ e, jsonLoads c.attributes = .error e → attributesDict c = JValue.obj [])
    ∧ (isClickable c).isOk = true
    ∧ (boundingBox c).isOk = true := by
  obtain ⟨entries, heq, hvals⟩ := h
  refine ⟨⟨entries, heq⟩, ?_, ?_, ?_⟩
  · intro e he
    by_cases hemp : c.attributes = ""
    · simp [attributesDict, hemp]
    · simp [attributesDict, hemp, he]
  · simp [isClickable, heq, Except.isOk, Except.toBool]
  · simp only [boundingBox, heq]
    cases hlook : objLookup entries "bounding_box_rect" with
    | none => simp [hlook, pyTruthy, Except.isOk, Except.toBool]
    | some v =>
      obtain ⟨p, hp, hpv⟩ := objLookup_mem entries _ v hlook
      obtain ⟨s, hs⟩ := hvals p hp
      have hv : v = JValue.str s := by rw [← hpv, hs]
      subst hv
      by_cases hse : s = ""
      · simp [hlook, hse, pyTruthy, Except.isOk, Except.toBool]
      · simp [hlook, pyTruthy, hse, Except.isOk, Except.toBool]

def wCandidateFull : Candidate :=
  ⟨"3", "a", "\x7b\"is_clickable\": \"true\", \"bounding_box_rect\": \"10,20,30,40\"\x7d",
    false, false⟩

/-- Witness for the amended C1 at a candidate with a string-valued JSON
attributes object. -/
theorem candidateAccessors_total_witness :
    (isClickable wCandidateFull).isOk = true
    ∧ (boundingBox wCandidateFull).isOk = true := by
  have h : ∃ entries, attributesDict wCandidateFull = JValue.obj entries
      ∧ ∀ p ∈ entries, ∃ s, p.2 = JValue.str s := by
    refine ⟨[("is_clickable", .str "true"), ("bounding_box_rect", .str "10,20,30,40")],
      rfl, ?_⟩
    intro p hp
    simp only [List.mem_cons, List.not_mem_nil, or_false] at hp
    rcases hp with rfl | rfl
    · exact ⟨"true", rfl⟩
    · exact ⟨"10,20,30,40", rfl⟩
  exact ⟨(candidateAccessors_total wCandidateFull h).2.2.1,
    (candidateAccessors_total wCandidateFull h).2.2.2⟩

theorem parseFloats_none_of_mem (l : List String) (p : String) (hp : p ∈ l)
    (hnone : pyFloatOfString p = none) : parseFloats l = none := by
  induction l with
  | nil => cases hp
  | cons a rest ih =>
    rcases List.mem_cons.mp hp with rfl | hp'
    · simp [parseFloats, hnone]
    · cases hpa : pyFloatOfString a with
      | none => simp [parseFloats, hpa]
      | some x => simp [parseFloats, hpa, ih hp']

theorem parseFloats_all_some (l : List String)
    (h : ∀ p ∈ l, (pyFloatOfString p).isSome = true) :
    ∃ xs, parseFloats l = some xs ∧ l.map pyFloatOfString = xs.map some := by
  induction l with
  | nil => exact ⟨[], rfl, rfl⟩
  | cons a rest ih =>
    obtain ⟨xs, hx, hmap⟩ := ih (fun p hp => h p (List.mem_cons_of_mem a hp))
    have ha := h a (List.mem_cons_self a rest)
    cases hpa : pyFloatOfString a with
    | none => rw [hpa] at ha; simp at ha
    | some x =>
      exact ⟨x :: xs, by simp [parseFloats, hpa, hx], by simp [hpa, hmap]⟩

def cCandidateFifth : Candidate :=
  ⟨"9", "div", "\x7b\"bounding_box_rect\": \"1,2,3,4,x\"\x7d", false, false⟩

/-- Observation of whether the accessor returned `None` without raising. -/
def returnsNone {α : Type} : Except PyErr (Option α) → Bool
  | .ok none => true
  | _ => false

/-- C4 counterexample: with five comma-separated parts whose fifth fails
float parsing, `bounding_box` still returns a tuple (built from the
first four parts) rather than the absent value the claim requires. -/
theorem boundingBox_extra_part_not_absent :
    pyFloatOfString "x" = none
    ∧ (boundingBox cCandidateFifth).isOk = true
    ∧ returnsNone (boundingBox cCandidateFifth) = false := ⟨rfl, rfl, rfl⟩

/-- C4 amended: `bounding_box` parses the first four comma-separated
parts of `bounding_box_rect` as floats and returns their tuple, ignoring
any parts beyond the fourth; it returns absent when the field is missing
or empty, when there are fewer than 4 parts, or when one of the first
four parts fails float parsing. -/
theorem boundingBox_spec (c : Candidate) (entries : List (String × JValue))
    (heq : attributesDict c = JValue.obj entries) :
    ((objLookup entries "bounding_box_rect" = none
        ∨ objLookup entries "bounding_box_rect" = some (JValue.str "")) →
      boundingBox c = .ok none)
    ∧ (∀ s, objLookup entries "bounding_box_rect" = some (JValue.str s) →
        (((pySplitComma s).length < 4 → boundingBox c = .ok none)
        ∧ ((∃ p ∈ (pySplitComma s).take 4, pyFloatOfString p = none) →
            boundingBox c = .ok none)
        ∧ ((pySplitComma s).length ≥ 4 →
            (∀ p ∈ (pySplitComma s).take 4, (pyFloatOfString p).isSome = true) →
            ∃ x y w h, boundingBox c = .ok (some (x, y, w, h))
              ∧ ((pySplitComma s).take 4).map pyFloatOfString
                  = [some x, some y, some w, some h]))) := by
  constructor
  · intro hmiss
    rcases hmiss with hlook | hlook <;>
      simp [boundingBox, heq, hlook, pyTruthy]
  · intro s hlook
    by_cases hse : s = ""
    · subst hse
      refine ⟨?_, ?_, ?_⟩
      · intro _
        simp [boundingBox, heq, hlook, pyTruthy]
      · intro _
        simp [boundingBox, heq, hlook, pyTruthy]
      · intro hlen
        simp [pySplitComma, splitCommaChars] at hlen
    · have hbb : boundingBox c = .ok (bboxFromString s) := by
        simp [boundingBox, heq, hlook, pyTruthy, hse]
      refine ⟨?_, ?_, ?_⟩
      · intro hlen
        rw [hbb, bboxFromString]
        simp only [ge_iff_le]
        rw [if_neg (by omega)]
      · intro ⟨p, hpmem, hpnone⟩
        rw [hbb, bboxFromString]
        by_cases hlen : (pySplitComma s).length ≥ 4
        · rw [if_pos hlen, parseFloats_none_of_mem _ p hpmem hpnone]
        · rw [if_neg hlen]
      · intro hlen hall
        obtain ⟨xs, hxs, hmap⟩ := parseFloats_all_some _ hall
        have hxslen : xs.length = 4 := by
          have h1 : ((pySplitComma s).take 4).length = 4 := by
            rw [List.length_take]
            omega
          have h2 := congrArg List.length hmap
          simp only [List.length_map] at h2
          omega
        match xs, hxslen with
        | [x, y, w, h], _ =>
          refine ⟨x, y, w, h, ?_, by simpa using hmap⟩
          rw [hbb, bboxFromString]
          simp only [ge_iff_le]
          rw [if_pos hlen, hxs]

def wCandidateBBox : Candidate :=
  ⟨"4", "a", "\x7b\"bounding_box_rect\": \"10,20,30,40\"\x7d", false, false⟩

/-- Witness for the amended C4 at a four-part bounding box. -/
theorem boundingBox_spec_witness :
    ∃ x y w h, boundingBox wCandidateBBox = .ok (some (x, y, w, h))
      ∧ ((pySplitComma "10,20,30,40").take 4).map pyFloatOfString
          = [some x, some y, some w, some h] :=
  ((boundingBox_spec wCandidateBBox
      [("bounding_box_rect", .str "10,20,30,40")] rfl).2
    "10,20,30,40" rfl).2.2 (by decide) (by decide)

/-! ## Claims about the loader -/

theorem exceptBind_ok {ε α β : Type} (a : α) (f : α → Except ε β) :
    ((Except.ok a : Except ε α) >>= f) = f a := rfl

theorem exceptBind_error {ε α β : Type} (e : ε) (f : α → Except ε β) :
    ((Except.error e : Except ε α) >>= f) = .error e := rfl

theorem mapE_ok_forall {α β : Type} (f : α → Except PyErr β) (l : List α) (bs : List β)
    (h : mapE f l = .ok bs) : ∀ x ∈ l, ∃ b, f x = .ok b := by
  induction l generalizing bs with
  | nil => intro x hx; cases hx
  | cons a rest ih =>
    intro x hx
    rcases List.mem_cons.mp hx with rfl | hx'
    · cases hfa : f x with
      | error e => rw [mapE, hfa] at h; cases h
      | ok b => exact ⟨b, rfl⟩
    · cases hfa : f a with
      | error e => rw [mapE, hfa] at h; cases h
      | ok b =>
        rw [mapE, hfa] at h
        cases hm : mapE f rest with
        | error e => rw [hm] at h; cases h
        | ok bs' => exact ih bs' hm x hx'

theorem jGetReq_error_of_not_hasKey (v : JValue) (k : String)
    (h : jHasKey v k = false) : ∃ e, jGetReq v k = .error e := by
  cases v with
  | obj entries =>
    cases hl : objLookup entries k with
    | none => exact ⟨.keyError k, by simp [jGetReq, hl]⟩
    | some w => rw [jHasKey, hl] at h; cases h
  | null => exact ⟨.typeError, rfl⟩
  | bool b => exact ⟨.typeError, rfl⟩
  | int n => exact ⟨.typeError, rfl⟩
  | float x => exact ⟨.typeError, rfl⟩
  | str s => exact ⟨.typeError, rfl⟩
  | arr l => exact ⟨.typeError, rfl⟩

/-- C5: a payload in which a task record lacks the required `actions`
field, or an action record lacks the required `operation` field, fails
to load as a whole: any record that cannot be loaded makes
`load_json_file` error out with no Dataset — partial or otherwise —
produced, and no record skipped. -/
theorem loadData_malformed_spec :
    (∀ (ts : List JValue) (split : String) (t : JValue), t ∈ ts →
      (∀ r, loadTask t ≠ .ok r) → ∀ d, loadData (.arr ts) split ≠ .ok d)
    ∧ (∀ t : JValue, jHasKey t "actions" = false → ∀ r, loadTask t ≠ .ok r)
    ∧ (∀ a : JValue, jHasKey a "operation" = false → ∀ r, loadAction a ≠ .ok r)
    ∧ (∀ (t : JValue) (acts : List JValue) (a : JValue),
        jGetReq t "actions" = .ok (.arr acts) → a ∈ acts →
        (∀ r, loadAction a ≠ .ok r) → ∀ r, loadTask t ≠ .ok r) := by
  refine ⟨?_, ?_, ?_, ?_⟩
  · intro ts split t ht hbad d hok
    simp only [loadData, asArr, exceptBind_ok] at hok
    cases hm : mapE loadTask ts with
    | error e => rw [hm, exceptBind_error] at hok; cases hok
    | ok tasks =>
      obtain ⟨r, hr⟩ := mapE_ok_forall loadTask ts tasks hm t ht
      exact hbad r hr
  · intro t h r hok
    obtain ⟨e, he⟩ := jGetReq_error_of_not_hasKey t "actions" h
    simp only [loadTask, he, exceptBind_error] at hok
    cases hok
  · intro a h r hok
    obtain ⟨e, he⟩ := jGetReq_error_of_not_hasKey a "operation" h
    simp only [loadAction, he, exceptBind_error] at hok
    cases hok
  · intro t acts a hga ha hbad r hok
    simp only [loadTask, hga, exceptBind_ok, asArr] at hok
    cases hm : mapE loadAction acts with
    | error e => rw [hm, exceptBind_error] at hok; cases hok
    | ok bs =>
      obtain ⟨b, hb⟩ := mapE_ok_forall loadAction acts bs hm a ha
      exact hbad b hb

/-- Witness for C5: the one-record payload whose task lacks `actions`
produces no Dataset. -/
theorem loadData_malformed_spec_witness :
    (loadData (.arr [JValue.obj [("website", JValue.str "w")]]) "train_0").isOk = false := by
  cases hres : loadData (.arr [JValue.obj [("website", JValue.str "w")]]) "train_0" with
  | error e => rfl
  | ok d =>
    exact absurd hres (loadData_malformed_spec.1 _ "train_0"
      (JValue.obj [("website", JValue.str "w")]) (by simp)
      (loadData_malformed_spec.2.1 (JValue.obj [("website", JValue.str "w")]) rfl) d)

def c9CandidateJ : JValue := .obj [("backend_node_id", .int 123), ("tag", .str "button"),
  ("is_original_target", .bool true)]

def c9ActionJ : JValue := .obj [
  ("action_uid", .str "a0"), ("raw_html", .str "<html>"), ("cleaned_html", .str "<div>"),
  ("operation", .obj [("op", .str "CLICK")]),
  ("pos_candidates", .arr [c9CandidateJ])]

def c9TaskJ : JValue := .obj [
  ("annotation_id", .str "t0"), ("website", .str "example.com"),
  ("domain", .str "Shopping"), ("subdomain", .str "General"),
  ("confirmed_task", .str "buy the thing"),
  ("actions", .arr [c9ActionJ])]

def c9Expected : Mind2WebDataset :=
  ⟨[⟨"t0", "example.com", "Shopping", "General", "buy the thing", [],
     [⟨"a0", "<html>", "<div>", ⟨"CLICK", "", "CLICK"⟩,
       [⟨"123", "button", "", true, false⟩], []⟩]⟩], "train_0"⟩

/-- C9: `load_candidate` coerces a numeric `backend_node_id` to its
string form; end to end, the one-task one-action payload whose positive
candidate has numeric id 123 and `is_original_target = true` loads to a
dataset whose primary ground truth has string id `"123"` and whose
ground-truthed-action count is 1. -/
theorem backendNodeId_string_spec :
    (∀ (entries : List (String × JValue)) (n : Int) (c : Candidate),
      objLookup entries "backend_node_id" = some (.int n) →
      loadCandidate (.obj entries) = .ok c → c.backend_node_id = toString n)
    ∧ loadData (.arr [c9TaskJ]) "train_0" = .ok c9Expected
    ∧ datasetNumActionsWithGroundTruth c9Expected = 1
    ∧ ((c9Expected.tasks.head?.bind (fun t => t.actions.head?)).bind primaryGroundTruth).map
        Candidate.backend_node_id = some "123" := by
  refine ⟨?_, rfl, rfl, rfl⟩
  intro entries n c hlook hok
  have hbid : jGetReq (JValue.obj entries) "backend_node_id" = .ok (.int n) := by
    simp [jGetReq, hlook]
  simp only [loadCandidate] at hok
  rw [hbid, exceptBind_ok] at hok
  simp only [pyStr, exceptBind_ok] at hok
  cases h2 : jGetReq (JValue.obj entries) "tag" >>= asString with
  | error e => rw [h2, exceptBind_error] at hok; cases hok
  | ok tag =>
    rw [h2, exceptBind_ok] at hok
    cases h3 : jGetOpt (JValue.obj entries) "attributes" (JValue.str "") >>= asString with
    | error e => rw [h3, exceptBind_error] at hok; cases hok
    | ok attrs =>
      rw [h3, exceptBind_ok] at hok
      cases h4 : jGetOpt (JValue.obj entries) "is_original_target" (JValue.bool false)
          >>= asBool with
      | error e => rw [h4, exceptBind_error] at hok; cases hok
      | ok orig =>
        rw [h4, exceptBind_ok] at hok
        cases h5 : jGetOpt (JValue.obj entries) "is_top_level_target" (JValue.bool false)
            >>= asBool with
        | error e => rw [h5, exceptBind_error] at hok; cases hok
        | ok top =>
          rw [h5, exceptBind_ok] at hok
          cases hok
          rfl

/-- Witness for C9 at the concrete candidate record with numeric id. -/
theorem backendNodeId_string_spec_witness :
    loadCandidate c9CandidateJ = .ok ⟨"123", "button", "", true, false⟩
    ∧ (⟨"123", "button", "", true, false⟩ : Candidate).backend_node_id
        = toString (123 : Int) :=
  ⟨rfl, backendNodeId_string_spec.1
    [("backend_node_id", .int 123), ("tag", .str "button"), ("is_original_target", .bool true)]
    123 ⟨"123", "button", "", true, false⟩ rfl rfl⟩

/-! ## Sampling

`Mind2WebDataset.sample` calls `random.seed(seed)` when a seed is given
and then `random.sample(self.tasks, min(n, len(self.tasks)))`.  The
global Mersenne Twister is modeled as an explicit state of an abstract
type `G`: `seedInit` models `random.seed` and `randbelow` models
`Random._randbelow` (contract: a result strictly below a positive
bound).  `random.sample` draws `k` distinct positions via the partial
Fisher-Yates pool loop `j = randbelow(n - i); result[i] = pool[j];
pool[j] = pool[n - i - 1]`, and raises `ValueError` for a negative
sample size. -/

/-- One run of the `random.sample` pool loop: `k` draws from the active
pool.  The `none` branch of the lookup is unreachable when `randbelow`
meets its contract. -/
def sampleStep {α G : Type} (randbelow : G → Nat → Nat × G) :
    Nat → List α → G → List α × G
  | 0, _, g => ([], g)
  | k + 1, pool, g =>
    let jr := randbelow g pool.length
    match pool[jr.1]? with
    | none => ([], jr.2)
    | some x =>
      let pool2 := (pool.set jr.1 (pool.getD (pool.length - 1) x)).dropLast
      let r := sampleStep randbelow k pool2 jr.2
      (x :: r.1, r.2)

/-- `Mind2WebDataset.sample(n, seed)` with the generator state passed
explicitly; reseeding replaces the incoming state. -/
def datasetSample {G : Type} (randbelow : G → Nat → Nat × G) (seedInit : Int → G)
    (d : Mind2WebDataset) (n : Int) (seed : Option Int) (g : G) :
    Except PyErr (Mind2WebDataset × G) :=
  let g0 := match seed with
    | some s => seedInit s
    | none => g
  let k : Int := min n (d.tasks.length : Int)
  if k < 0 then .error .valueError
  else
    let r := sampleStep randbelow k.toNat d.tasks g0
    .ok (⟨r.1, d.split ++ "__sample" ++ toString n⟩, r.2)

theorem pool_swap_perm {α : Type} (pool : List α) (j : Nat) (x : α)
    (hj : j < pool.length) (hx : pool[j] = x) :
    List.Perm pool (x :: (pool.set j (pool.getD (pool.length - 1) x)).dropLast) := by
  have hne : pool ≠ [] := by
    intro h
    rw [h] at hj
    exact absurd hj (by simp)
  have hlt : pool.length - 1 < pool.length := by omega
  have hlast : pool.getD (pool.length - 1) x = pool[pool.length - 1] :=
    List.getD_eq_getElem pool x (by omega)
  have hdecomp : pool.take j ++ x :: pool.drop (j + 1) = pool := by
    rw [← hx]
    rw [List.getElem_cons_drop]
    exact List.take_append_drop j pool
  rw [List.set_eq_take_cons_drop _ hj, hlast]
  by_cases hD : pool.drop (j + 1) = []
  · have hjlast : j = pool.length - 1 := by
      have := List.length_drop (j + 1) pool
      rw [hD] at this
      simp at this
      omega
    have hxlast : pool[pool.length - 1] = x := by
      rw [← hx]
      congr 1
      omega
    rw [hxlast, hD, List.dropLast_concat]
    conv_lhs => rw [← hdecomp]
    rw [hD]
    exact List.perm_append_singleton x (pool.take j)
  · have hlastmem : pool.drop (j + 1) ≠ [] := hD
    have hDlen : 0 < (pool.drop (j + 1)).length := List.length_pos.mpr hD
    have hgetlast : (pool.drop (j + 1)).getLast hD = pool[pool.length - 1] := by
      rw [List.getLast_eq_getElem, List.getElem_drop]
      congr 1
      rw [List.length_drop] at *
      omega
    have hDdecomp : (pool.drop (j + 1)).dropLast ++ [pool[pool.length - 1]]
        = pool.drop (j + 1) := by
      rw [← hgetlast]
      exact List.dropLast_append_getLast hD
    have hdrop : (pool.take j ++ pool[pool.length - 1] :: pool.drop (j + 1)).dropLast
        = pool.take j ++ pool[pool.length - 1] :: (pool.drop (j + 1)).dropLast := by
      rw [List.dropLast_append_of_ne_nil _ (by simp)]
      congr 1
      conv_lhs => rw [← hDdecomp]
      rw [← List.cons_append, List.dropLast_concat]
    rw [hdrop]
    conv_lhs => rw [← hdecomp]
    refine List.Perm.trans List.perm_middle ?_
    refine List.Perm.cons x (List.Perm.append_left (pool.take j) ?_)
    conv_lhs => rw [← hDdecomp]
    exact List.perm_append_singleton _ _

theorem sampleStep_spec {α G : Type} (randbelow : G → Nat → Nat × G)
    (hrb : ∀ g m, 0 < m → (randbelow g m).1 < m) :
    ∀ (k : Nat) (pool : List α) (g : G), k ≤ pool.length →
      (sampleStep randbelow k pool g).1.length = k
      ∧ ∃ rest, List.Perm ((sampleStep randbelow k pool g).1 ++ rest) pool := by
  intro k
  induction k with
  | zero => exact fun pool g _ => ⟨rfl, ⟨pool, List.Perm.refl _⟩⟩
  | succ k ih =>
    intro pool g hk
    have hpos : 0 < pool.length := by omega
    have hj : (randbelow g pool.length).1 < pool.length := hrb g _ hpos
    have hget : pool[(randbelow g pool.length).1]?
        = some (pool[(randbelow g pool.length).1]) := List.getElem?_eq_getElem hj
    set j := (randbelow g pool.length).1 with hjdef
    set x := pool[j] with hxdef
    have hred : sampleStep randbelow (k + 1) pool g
        = (x :: (sampleStep randbelow k
            ((pool.set j (pool.getD (pool.length - 1) x)).dropLast)
            (randbelow g pool.length).2).1,
          (sampleStep randbelow k
            ((pool.set j (pool.getD (pool.length - 1) x)).dropLast)
            (randbelow g pool.length).2).2) := by
      rw [sampleStep]
      rw [hget]
    have hlen2 : ((pool.set j (pool.getD (pool.length - 1) x)).dropLast).length
        = pool.length - 1 := by
      rw [List.length_dropLast, List.length_set]
    obtain ⟨ihlen, rest, ihperm⟩ :=
      ih ((pool.set j (pool.getD (pool.length - 1) x)).dropLast)
        (randbelow g pool.length).2 (by omega)
    constructor
    · rw [hred, List.length_cons, ihlen]
    · refine ⟨rest, ?_⟩
      rw [hred]
      simp only [List.cons_append]
      exact List.Perm.trans (List.Perm.cons x ihperm) (pool_swap_perm pool j x hj rfl).symm

def wRandBelow (g m : Nat) : Nat × Nat := (g % m, g + 1)

def wSeedInit (s : Int) : Nat := s.toNat

/-- C6 counterexample: with a negative n, `sample` raises `ValueError`
(`random.sample` rejects `min(n, num_tasks) = n < 0`) rather than
selecting `min(n, num_tasks)` tasks, so the claim fails for general
integers n. -/
theorem datasetSample_negative_raises :
    datasetSample wRandBelow wSeedInit cDatasetWX (-1) (some 42) 0
      = .error .valueError := rfl

/-- C6 amended: for every nonnegative n and explicitly supplied seed,
`sample` returns `min(n, num_tasks)` tasks drawn without replacement
from the dataset; the result is a function of the seed alone —
independent of the ambient generator state left by any other use of
randomness — so two calls with the same seed agree; and when
`n >= num_tasks` the result is a permutation of all tasks, each
exactly once. -/
theorem datasetSample_spec {G : Type} (randbelow : G → Nat → Nat × G)
    (seedInit : Int → G) (d : Mind2WebDataset) (n : Int) (s : Int) (g₁ g₂ : G)
    (hrb : ∀ g m, 0 < m → (randbelow g m).1 < m) (hn : 0 ≤ n) :
    datasetSample randbelow seedInit d n (some s) g₁
      = datasetSample randbelow seedInit d n (some s) g₂
    ∧ ∃ d' g', datasetSample randbelow seedInit d n (some s) g₁ = .ok (d', g')
        ∧ d'.tasks.length = min n.toNat d.tasks.length
        ∧ List.Subperm d'.tasks d.tasks
        ∧ ((d.tasks.length : Int) ≤ n → List.Perm d'.tasks d.tasks) := by
  constructor
  · rfl
  · have hk0 : ¬ (min n (d.tasks.length : Int) < 0) := by omega
    have hkle : (min n (d.tasks.length : Int)).toNat ≤ d.tasks.length := by omega
    obtain ⟨hlen, rest, hperm⟩ := sampleStep_spec randbelow hrb
      (min n (d.tasks.length : Int)).toNat d.tasks (seedInit s) hkle
    refine ⟨⟨(sampleStep randbelow (min n (d.tasks.length : Int)).toNat d.tasks
          (seedInit s)).1, d.split ++ "__sample" ++ toString n⟩,
      (sampleStep randbelow (min n (d.tasks.length : Int)).toNat d.tasks (seedInit s)).2,
      ?_, ?_, ?_, ?_⟩
    · simp only [datasetSample]
      rw [if_neg hk0]
    · rw [hlen]
      omega
    · exact List.Subperm.trans (List.sublist_append_left _ rest).subperm hperm.subperm
    · intro hge
      have hkfull : (min n (d.tasks.length : Int)).toNat = d.tasks.length := by omega
      have hl2 := hperm.length_eq
      rw [List.length_append, hlen, hkfull] at hl2
      have hrest : rest = [] := List.eq_nil_of_length_eq_zero (by omega)
      subst hrest
      simpa using hperm

/-- Witness for the amended C6 at a two-task dataset, sample size 5,
seed 42, and two different ambient generator states. -/
theorem datasetSample_spec_witness :
    (datasetSample wRandBelow wSeedInit cDatasetWX 5 (some 42) 0
      = datasetSample wRandBelow wSeedInit cDatasetWX 5 (some 42) 999)
    ∧ ∃ d' g', datasetSample wRandBelow wSeedInit cDatasetWX 5 (some 42) 0 = .ok (d', g')
        ∧ d'.tasks.length = min (5:Int).toNat cDatasetWX.tasks.length
        ∧ List.Subperm d'.tasks cDatasetWX.tasks
        ∧ ((cDatasetWX.tasks.length : Int) ≤ 5 → List.Perm d'.tasks cDatasetWX.tasks) :=
  datasetSample_spec wRandBelow wSeedInit cDatasetWX 5 42 0 999
    (fun g m hm => Nat.mod_lt g hm) (by decide)

end Mind2Web
